import Mathlib

/-!
Verification of the DLC (Digital Life Certificate) aggregation pipeline.

The definitions below are a shallow embedding of the Python sources:
`dlc_bank_analysis_fixed.py`, `app.py`, `dlc_api_endpoint.py` and
`excel_data_processor.py`.  Python dicts (and `defaultdict`s) are modelled
as insertion-ordered association lists `List (String × α)`; the integer
counters are `Nat`; `datetime.now().year` is passed as an explicit
`current_year` argument; missing spreadsheet cells (`pd.notna` false) are
`Option.none`.
-/

namespace DLC

/-- Read a key from an association list, returning the default `d` when the
key is absent (first matching entry wins, as in a Python dict). -/
def lookupD (k : String) (d : α) : List (String × α) → α
  | [] => d
  | (k₁, v) :: rest => if k₁ = k then v else lookupD k d rest

/-- Update the entry for key `k` by `f`, inserting `f d` at the end when the
key is absent.  This models the `defaultdict` access-then-mutate pattern of
the Python sources: a fresh key is appended in insertion order. -/
def updateA (k : String) (f : α → α) (d : α) : List (String × α) → List (String × α)
  | [] => [(k, f d)]
  | (k₁, v) :: rest => if k₁ = k then (k₁, f v) :: rest else (k₁, v) :: updateA k f d rest

/-- `m[k] += n` on a `defaultdict(int)`. -/
def bump (k : String) (n : Nat) (m : List (String × Nat)) : List (String × Nat) :=
  updateA k (· + n) 0 m

/-- Sum of all counter values of a Python `defaultdict(int)`. -/
def sumVals (m : List (String × Nat)) : Nat :=
  (m.map (·.2)).sum

theorem lookupD_updateA_self (k : String) (f : α → α) (d : α) (m : List (String × α)) :
    lookupD k d (updateA k f d m) = f (lookupD k d m) := by
  induction m with
  | nil => simp [lookupD, updateA]
  | cons e rest ih =>
    obtain ⟨k₁, v⟩ := e
    by_cases h : k₁ = k
    · simp [lookupD, updateA, h]
    · simp [lookupD, updateA, h, ih]

theorem lookupD_updateA_ne (k k' : String) (hk : k' ≠ k) (f : α → α) (d : α)
    (m : List (String × α)) : lookupD k' d (updateA k f d m) = lookupD k' d m := by
  induction m with
  | nil => simp [lookupD, updateA, Ne.symm hk]
  | cons e rest ih =>
    obtain ⟨k₁, v⟩ := e
    by_cases h : k₁ = k
    · subst h
      simp [lookupD, updateA, Ne.symm hk]
    · simp [lookupD, updateA, h, ih]

theorem lookupD_bump_self (k : String) (n : Nat) (m : List (String × Nat)) :
    lookupD k 0 (bump k n m) = lookupD k 0 m + n :=
  lookupD_updateA_self k (· + n) 0 m

theorem lookupD_bump_ne (k k' : String) (hk : k' ≠ k) (n : Nat) (m : List (String × Nat)) :
    lookupD k' 0 (bump k n m) = lookupD k' 0 m :=
  lookupD_updateA_ne k k' hk (· + n) 0 m

theorem sumVals_bump (k : String) (n : Nat) (m : List (String × Nat)) :
    sumVals (bump k n m) = sumVals m + n := by
  induction m with
  | nil => simp [bump, updateA, sumVals]
  | cons e rest ih =>
    obtain ⟨k₁, v⟩ := e
    by_cases h : k₁ = k
    · simp only [bump, updateA, if_pos h, sumVals, List.map_cons, List.sum_cons]
      omega
    · simp only [bump, updateA, if_neg h, sumVals, List.map_cons, List.sum_cons]
      simp only [bump, sumVals] at ih
      omega

theorem mem_updateA (k : String) (f : α → α) (d : α) (m : List (String × α))
    (e : String × α) (he : e ∈ updateA k f d m) :
    e ∈ m ∨ ∃ v, e = (k, f v) ∧ (v = d ∨ (k, v) ∈ m) := by
  induction m with
  | nil =>
    simp only [updateA, List.mem_singleton] at he
    exact Or.inr ⟨d, he, Or.inl rfl⟩
  | cons e₁ rest ih =>
    obtain ⟨k₁, v₁⟩ := e₁
    by_cases h : k₁ = k
    · subst h
      simp only [updateA, if_true, eq_self_iff_true, List.mem_cons] at he
      rcases he with he | he
      · exact Or.inr ⟨v₁, he, Or.inr (List.mem_cons_self _ _)⟩
      · exact Or.inl (List.mem_cons_of_mem _ he)
    · simp only [updateA, if_neg h, List.mem_cons] at he
      rcases he with he | he
      · exact Or.inl (he ▸ List.mem_cons_self _ _)
      · rcases ih he with h1 | ⟨v, hv, hv'⟩
        · exact Or.inl (List.mem_cons_of_mem _ h1)
        · refine Or.inr ⟨v, hv, ?_⟩
          rcases hv' with h2 | h2
          · exact Or.inl h2
          · exact Or.inr (List.mem_cons_of_mem _ h2)

/-- `str.replace('.0', '')` from `dlc_bank_analysis_fixed.py` line 94: remove
every non-overlapping occurrence of the two-character pattern `".0"`,
scanning left to right and continuing after each removal (Python
`str.replace` semantics with an empty replacement). -/
def stripDotZero : List Char → List Char
  | [] => []
  | [c] => [c]
  | c₁ :: c₂ :: rest =>
    if c₁ = '.' ∧ c₂ = '0' then stripDotZero rest
    else c₁ :: stripDotZero (c₂ :: rest)

/-- String wrapper for `stripDotZero`. -/
def stripDotZeroS (s : String) : String :=
  ⟨stripDotZero s.data⟩

/-- `pincode.endswith('.0')` from `app.py` lines 493/495. -/
def endsDotZero (l : List Char) : Bool :=
  match l.reverse with
  | '0' :: '.' :: _ => true
  | _ => false

/-- `app.py` lines 493-496: `if pincode.endswith('.0'): pincode = pincode[:-2]`
— strip exactly a trailing `".0"`. -/
def clean_pincode_app (s : String) : String :=
  if endsDotZero s.data then ⟨s.data.dropLast.dropLast⟩ else s

/-- Python `int()` applied to the (non-negative) digit strings that occur as
pincode prefixes: `some` of the decimal value when the string is non-empty
and all digits, `none` (the exception path) otherwise. -/
def parseDigitsAux : List Char → Nat → Option Nat
  | [], acc => some acc
  | c :: cs, acc => if c.isDigit then parseDigitsAux cs (acc * 10 + (c.toNat - 48)) else none

/-- See `parseDigitsAux`; `int('')` raises, hence `none` on the empty list. -/
def pyIntDigits (l : List Char) : Option Nat :=
  match l with
  | [] => none
  | _ => parseDigitsAux l 0

/-- `int(str(pincode)[:3])` as used by the state/district classifiers. -/
def pin3 (s : String) : Option Nat :=
  pyIntDigits (s.data.take 3)

/-- `get_age_group` from `dlc_bank_analysis_fixed.py` lines 7-25 (identical
copies in `app.py` lines 784-803 and `excel_data_processor.py` lines 63-82).
`datetime.now().year` is the explicit `current_year` argument; the `except`
branch is unreachable for integer input, so it does not appear. -/
def get_age_group (birth_year current_year : Int) : String :=
  let age := current_year - birth_year
  if age < 60 then "Below 60"
  else if 60 ≤ age ∧ age ≤ 65 then "60-65"
  else if 66 ≤ age ∧ age ≤ 70 then "66-70"
  else if 71 ≤ age ∧ age ≤ 75 then "71-75"
  else if 76 ≤ age ∧ age ≤ 80 then "76-80"
  else "80+"

/-- `get_state_from_pincode` from `app.py` lines 642-690 (same table in
`excel_data_processor.py` lines 13-61): first three characters parsed as an
integer, then the range chain; parse failure is the `except` path. -/
def get_state_from_pincode_app (pincode : String) : String :=
  match pin3 pincode with
  | none => "Unknown"
  | some n =>
    if 110 ≤ n ∧ n ≤ 140 then "Delhi"
    else if 121 ≤ n ∧ n ≤ 136 then "Haryana"
    else if 140 ≤ n ∧ n ≤ 160 then "Punjab"
    else if 301 ≤ n ∧ n ≤ 345 then "Rajasthan"
    else if 201 ≤ n ∧ n ≤ 285 then "Uttar Pradesh"
    else if 800 ≤ n ∧ n ≤ 855 then "Bihar"
    else if 700 ≤ n ∧ n ≤ 743 then "West Bengal"
    else if 400 ≤ n ∧ n ≤ 445 then "Maharashtra"
    else if 380 ≤ n ∧ n ≤ 396 then "Gujarat"
    else if 560 ≤ n ∧ n ≤ 591 then "Karnataka"
    else if 600 ≤ n ∧ n ≤ 643 then "Tamil Nadu"
    else if 500 ≤ n ∧ n ≤ 509 then "Telangana"
    else if 515 ≤ n ∧ n ≤ 535 then "Andhra Pradesh"
    else if 450 ≤ n ∧ n ≤ 492 then "Madhya Pradesh"
    else if 751 ≤ n ∧ n ≤ 770 then "Odisha"
    else if 781 ≤ n ∧ n ≤ 788 then "Assam"
    else if 682 ≤ n ∧ n ≤ 695 then "Kerala"
    else if 831 ≤ n ∧ n ≤ 835 then "Jharkhand"
    else if 248 ≤ n ∧ n ≤ 263 then "Uttarakhand"
    else if 171 ≤ n ∧ n ≤ 177 then "Himachal Pradesh"
    else "Other States"

/-- `get_state_from_pincode` from `dlc_bank_analysis_fixed.py` lines 27-54:
the input is first normalized by `.replace('.0', '')`, a three-character
minimum is enforced, and all failure paths yield `"Invalid Pincode"`. -/
def get_state_from_pincode_fixed (pincode : String) : String :=
  let pin_str := stripDotZero pincode.data
  if 3 ≤ pin_str.length then
    match pyIntDigits (pin_str.take 3) with
    | none => "Invalid Pincode"
    | some n =>
      if 110 ≤ n ∧ n ≤ 140 then "Delhi"
      else if 201 ≤ n ∧ n ≤ 285 then "Uttar Pradesh"
      else if 301 ≤ n ∧ n ≤ 345 then "Rajasthan"
      else if 360 ≤ n ∧ n ≤ 396 then "Gujarat"
      else if 400 ≤ n ∧ n ≤ 445 then "Maharashtra"
      else if 500 ≤ n ∧ n ≤ 509 then "Telangana"
      else if 510 ≤ n ∧ n ≤ 518 then "Andhra Pradesh"
      else if 560 ≤ n ∧ n ≤ 591 then "Karnataka"
      else if 600 ≤ n ∧ n ≤ 643 then "Tamil Nadu"
      else if 682 ≤ n ∧ n ≤ 695 then "Kerala"
      else if 700 ≤ n ∧ n ≤ 743 then "West Bengal"
      else if 751 ≤ n ∧ n ≤ 770 then "Odisha"
      else if 800 ≤ n ∧ n ≤ 855 then "Bihar"
      else if 781 ≤ n ∧ n ≤ 788 then "Assam"
      else if 160 ≤ n ∧ n ≤ 165 then "Punjab"
      else if 171 ≤ n ∧ n ≤ 177 then "Himachal Pradesh"
      else if 180 ≤ n ∧ n ≤ 194 then "Jammu and Kashmir"
      else "Other State"
  else "Invalid Pincode"

/-- `get_district_from_pincode` from `dlc_api_endpoint.py` lines 114-158. -/
def get_district_from_pincode (pincode : String) : String :=
  match pin3 pincode with
  | none => "Unknown District"
  | some n =>
    if 380 ≤ n ∧ n ≤ 382 then "Ahmedabad"
    else if 390 ≤ n ∧ n ≤ 396 then "Vadodara"
    else if 360 ≤ n ∧ n ≤ 370 then "Rajkot"
    else if 370 ≤ n ∧ n ≤ 375 then "Jamnagar"
    else if 383 ≤ n ∧ n ≤ 389 then "Gandhinagar"
    else if 362 ≤ n ∧ n ≤ 365 then "Bhavnagar"
    else if 302 ≤ n ∧ n ≤ 303 then "Jaipur"
    else if 342 ≤ n ∧ n ≤ 344 then "Jodhpur"
    else if 313 ≤ n ∧ n ≤ 314 then "Udaipur"
    else if 334 ≤ n ∧ n ≤ 335 then "Bikaner"
    else if 301 ≤ n ∧ n ≤ 302 then "Alwar"
    else if 321 ≤ n ∧ n ≤ 322 then "Bharatpur"
    else if 400 ≤ n ∧ n ≤ 421 then "Mumbai"
    else if 411 ≤ n ∧ n ≤ 414 then "Pune"
    else if 440 ≤ n ∧ n ≤ 445 then "Nagpur"
    else if 422 ≤ n ∧ n ≤ 425 then "Nashik"
    else if 431 ≤ n ∧ n ≤ 432 then "Aurangabad"
    else if 560 ≤ n ∧ n ≤ 562 then "Bangalore"
    else if 570 ≤ n ∧ n ≤ 571 then "Mysore"
    else if 580 ≤ n ∧ n ≤ 582 then "Hubli"
    else if 575 ≤ n ∧ n ≤ 576 then "Mangalore"
    else if 800 ≤ n ∧ n ≤ 803 then "Patna"
    else if 834 ≤ n ∧ n ≤ 835 then "Ranchi"
    else if 831 ≤ n ∧ n ≤ 832 then "Dhanbad"
    else if 110 ≤ n ∧ n ≤ 140 then "Delhi"
    else "Other District"

/-- One spreadsheet row, restricted to the fields the aggregation reads.
`none` models a cell for which `pd.notna` is false.  `YOB` is the already
coerced integer birth year (`int(float(row.get('YOB', 1960)))`). -/
structure Row where
  BRANCH_PINCODE : Option String
  PENSIONER_PINCODE : Option String
  YOB : Option Int
  deriving DecidableEq, Repr

/-- `str(row.get(...)).replace('.0','') if pd.notna(...) else ''` from
`dlc_bank_analysis_fixed.py` lines 94-95. -/
def normPin (o : Option String) : String :=
  match o with
  | none => ""
  | some s => stripDotZeroS s

/-- One value of the `bank_pincode_data` defaultdict of
`dlc_bank_analysis_fixed.py` lines 67-72. -/
structure BankData where
  total_dlc_completed : Nat
  age_groups : List (String × Nat)
  state : String
  pensioner_states : List (String × Nat)
  deriving DecidableEq, Repr

/-- The initial value produced by the `defaultdict` lambda of
`dlc_bank_analysis_fixed.py` lines 67-72. -/
def bankDefault : BankData :=
  ⟨0, [], "", []⟩

/-- The per-row body of the loop of `analyze_dlc_by_bank_pincode`
(`dlc_bank_analysis_fixed.py` lines 91-120): normalize the pincodes and the
birth year, skip rows whose branch pincode is empty or shorter than six
characters, otherwise classify and increment the branch-pincode bucket. -/
def bankStep (current_year : Int) (m : List (String × BankData)) (r : Row) :
    List (String × BankData) :=
  let branch_pincode := normPin r.BRANCH_PINCODE
  let pensioner_pincode := normPin r.PENSIONER_PINCODE
  let birth_year := r.YOB.getD 1960
  if branch_pincode = "" ∨ branch_pincode.length < 6 then m
  else
    let age_group := get_age_group birth_year current_year
    let bank_state := get_state_from_pincode_fixed branch_pincode
    let pensioner_state := get_state_from_pincode_fixed pensioner_pincode
    updateA branch_pincode (fun d =>
      { total_dlc_completed := d.total_dlc_completed + 1
        age_groups := bump age_group 1 d.age_groups
        state := if d.state = "" then bank_state else d.state
        pensioner_states := bump pensioner_state 1 d.pensioner_states }) bankDefault m

/-- `analyze_dlc_by_bank_pincode` (`dlc_bank_analysis_fixed.py` lines
56-156) as a fold over the rows of all files, followed by the
`total_dlc_completed > 0` emission filter of lines 140-148. -/
def analyze (current_year : Int) (rows : List Row) : List (String × BankData) :=
  (rows.foldl (bankStep current_year) []).filter (fun e => 0 < e.2.total_dlc_completed)

/-- One value of the `state_data` defaultdict of `excel_data_processor.py`
lines 89-93. -/
structure StateData where
  total_pensioners : Nat
  age_groups : List (String × Nat)
  bank_locations : List (String × Nat)
  deriving DecidableEq, Repr

/-- The initial value of the `state_data` defaultdict lambda. -/
def stateDefault : StateData :=
  ⟨0, [], []⟩

/-- The per-row body of `process_excel_data` (`excel_data_processor.py`
lines 108-124): every row is counted under the state of its pensioner
pincode — there is no branch-pincode skip in this view.  Note this script
does not strip the `".0"` artifact (`str(row[...])` only). -/
def stateStep (current_year : Int) (m : List (String × StateData)) (r : Row) :
    List (String × StateData) :=
  let pensioner_pincode := r.PENSIONER_PINCODE.getD ""
  let branch_pincode := r.BRANCH_PINCODE.getD ""
  let birth_year := r.YOB.getD 1960
  let state := get_state_from_pincode_app pensioner_pincode
  let age_group := get_age_group birth_year current_year
  let bank_state := get_state_from_pincode_app branch_pincode
  updateA state (fun d =>
    { total_pensioners := d.total_pensioners + 1
      age_groups := bump age_group 1 d.age_groups
      bank_locations := bump bank_state 1 d.bank_locations }) stateDefault m

/-- One value of the `state_wise_data` defaultdict of `dlc_api_endpoint.py`
lines 39-44, restricted to the counting fields (the `bank_pincodes`
presentation list and `pincode_counts` are frontend decoration). -/
structure ApiStateData where
  total_dlc_completed : Nat
  age_groups : List (String × Nat)
  deriving DecidableEq, Repr

/-- Initial value of the `state_wise_data` defaultdict lambda. -/
def apiStateDefault : ApiStateData :=
  ⟨0, []⟩

/-- The state-aggregation part of the loop of
`dlc_api_endpoint.get_dlc_bank_pincode_data` (lines 54-68): each persisted
bank-pincode bucket is added, unconditionally, to the state stored in its
`state` field. -/
def apiStateStep (m : List (String × ApiStateData)) (e : String × BankData) :
    List (String × ApiStateData) :=
  updateA e.2.state (fun d =>
    { total_dlc_completed := d.total_dlc_completed + e.2.total_dlc_completed
      age_groups := e.2.age_groups.foldl (fun ags a => bump a.1 a.2 ags) d.age_groups })
    apiStateDefault m

/-- The whole bank-location state rollup of `dlc_api_endpoint.py`. -/
def apiStateRollup (entries : List (String × BankData)) : List (String × ApiStateData) :=
  entries.foldl apiStateStep []

/-- One entry of `state_final` (`dlc_api_endpoint.py` lines 83-91): the
accumulated `total_dlc_completed` is exposed as `total_pensioners`. -/
structure ApiStateFinal where
  total_pensioners : Nat
  age_groups : List (String × Nat)
  deriving DecidableEq, Repr

/-- `state_final` construction from `dlc_api_endpoint.py` lines 83-91. -/
def apiStateFinalize (m : List (String × ApiStateData)) : List (String × ApiStateFinal) :=
  m.map (fun e => (e.1, ⟨e.2.total_dlc_completed, e.2.age_groups⟩))

/-- The inclusion test of `app.py` line 840: a pensioner-state label takes
part in the residence rollup unless it is empty or one of the two sentinel
labels. -/
def stateIncluded (s : String) : Prop :=
  s ≠ "" ∧ s ≠ "Invalid Pincode" ∧ s ≠ "Other State"

instance (s : String) : Decidable (stateIncluded s) := by
  unfold stateIncluded
  infer_instance

/-- One value of the `state_wise_data` defaultdict of `app.py` lines
824-830, restricted to the fields the loop writes (`pincode_counts` and
`pensioner_pincodes` are never incremented by the residence loop). -/
structure ResStateData where
  total_pensioners : Nat
  age_groups : List (String × Nat)
  bank_locations : List (String × Nat)
  deriving DecidableEq, Repr

/-- Initial value of the residence `state_wise_data` defaultdict lambda. -/
def resDefault : ResStateData :=
  ⟨0, [], []⟩

/-- The per-pensioner-state body of the residence-rollup loop of
`app.get_dlc_bank_pincode_data` (`app.py` lines 839-852), abstracted over
the enclosing bucket's fields: a non-sentinel state `q.1` receives the
pensioner count `q.2`, a bank-location count, and — when the bucket's total
is positive — a truncated proportional share
`int((age_count * pensioner_count) / total_bank_dlc)` of every age group;
sentinel states are skipped. -/
def resInner (total_dlc : Nat) (age_groups : List (String × Nat)) (bank_state : String)
    (m' : List (String × ResStateData)) (q : String × Nat) :
    List (String × ResStateData) :=
  if stateIncluded q.1 then
    updateA q.1 (fun d =>
      { total_pensioners := d.total_pensioners + q.2
        bank_locations := bump bank_state q.2 d.bank_locations
        age_groups :=
          if 0 < total_dlc then
            age_groups.foldl (fun ags a => bump a.1 ((a.2 * q.2) / total_dlc) ags)
              d.age_groups
          else d.age_groups }) resDefault m'
  else m'

/-- The per-bucket body of the residence-rollup loop of `app.py` lines
835-852: walk the bucket's `pensioner_states` with `resInner`. -/
def resStep (m : List (String × ResStateData)) (e : String × BankData) :
    List (String × ResStateData) :=
  e.2.pensioner_states.foldl
    (resInner e.2.total_dlc_completed e.2.age_groups e.2.state) m

/-- The whole residence-based state rollup of `app.py` lines 835-852. -/
def resRollup (entries : List (String × BankData)) : List (String × ResStateData) :=
  entries.foldl resStep []

/-- The age-group count recorded for residence state `s`, bucket `g`. -/
def lookupAgeRes (s g : String) (m : List (String × ResStateData)) : Nat :=
  lookupD g 0 (lookupD s resDefault m).age_groups

/-- The total amount that the residence rollup of `app.py` lines 847-852
adds to age-group histograms on account of one bank-pincode bucket: the sum,
over its non-sentinel pensioner states and its age groups, of the truncated
proportional counts. -/
def redistributedSum (e : BankData) : Nat :=
  ((e.pensioner_states.filter (fun q => decide (stateIncluded q.1))).map (fun q =>
    (e.age_groups.map (fun a => (a.2 * q.2) / e.total_dlc_completed)).sum)).sum

/-- Insertion step of a stable descending sort on `(key, count)` pairs: the
incoming (earlier) element is placed before the first element whose count
does not exceed it, so equal counts keep their first-encountered order.
Together with `sortByCountDesc` this models Python's stable
`sorted(items, key=lambda x: count, reverse=True)`. -/
def insertByCountDesc (x : String × Nat) : List (String × Nat) → List (String × Nat)
  | [] => [x]
  | y :: ys => if y.2 ≤ x.2 then x :: y :: ys else y :: insertByCountDesc x ys

/-- Stable descending sort by count; see `insertByCountDesc`. -/
def sortByCountDesc : List (String × Nat) → List (String × Nat)
  | [] => []
  | x :: xs => insertByCountDesc x (sortByCountDesc xs)

/-- `sorted(items, key=..., reverse=True)[:n]` — the top-N projection used
at `dlc_bank_analysis_fixed.py` lines 176/195 and `dlc_api_endpoint.py`
lines 90/99. -/
def topN (n : Nat) (l : List (String × Nat)) : List (String × Nat) :=
  (sortByCountDesc l).take n

/-- The age-bucket table exactly as the specification words it (refinement
reference for `get_age_group`): `age = referenceYear - birthYear`;
`<60→Below60`, `[60,65]`, `[66,70]`, `[71,75]`, `[76,80]`, `else→80+`. -/
def classifyAgeGroup_spec (birthYear referenceYear : Int) : String :=
  let age := referenceYear - birthYear
  if age < 60 then "Below 60"
  else if 60 ≤ age ∧ age ≤ 65 then "60-65"
  else if 66 ≤ age ∧ age ≤ 70 then "66-70"
  else if 71 ≤ age ∧ age ≤ 75 then "71-75"
  else if 76 ≤ age ∧ age ≤ 80 then "76-80"
  else "80+"

/-- The six fixed age-group bucket labels, indexed in boundary order
(indices 5 and above share the final `"80+"` label). -/
def ageBucketName : Nat → String
  | 0 => "Below 60"
  | 1 => "60-65"
  | 2 => "66-70"
  | 3 => "71-75"
  | 4 => "76-80"
  | _ => "80+"

/-- The defining integer-age condition of each of the six buckets. -/
def ageCond : Nat → Int → Prop
  | 0, a => a < 60
  | 1, a => 60 ≤ a ∧ a ≤ 65
  | 2, a => 66 ≤ a ∧ a ≤ 70
  | 3, a => 71 ≤ a ∧ a ≤ 75
  | 4, a => 76 ≤ a ∧ a ≤ 80
  | _, a => 80 < a

theorem age_group_complete (y r : Int) :
    ∃ i : Nat, i < 6 ∧ ageCond i (r - y) ∧ get_age_group y r = ageBucketName i ∧
      ∀ j : Nat, j < 6 → ageCond j (r - y) → j = i := by
  simp only [get_age_group]
  set a := r - y with ha
  by_cases h0 : a < 60
  · refine ⟨0, by omega, h0, by rw [if_pos h0]; rfl, ?_⟩
    intro j hj hc
    interval_cases j <;> simp only [ageCond] at hc <;> omega
  by_cases h1 : 60 ≤ a ∧ a ≤ 65
  · refine ⟨1, by omega, h1, by rw [if_neg h0, if_pos h1]; rfl, ?_⟩
    intro j hj hc
    interval_cases j <;> simp only [ageCond] at hc <;> omega
  by_cases h2 : 66 ≤ a ∧ a ≤ 70
  · refine ⟨2, by omega, h2, by rw [if_neg h0, if_neg h1, if_pos h2]; rfl, ?_⟩
    intro j hj hc
    interval_cases j <;> simp only [ageCond] at hc <;> omega
  by_cases h3 : 71 ≤ a ∧ a ≤ 75
  · refine ⟨3, by omega, h3, by rw [if_neg h0, if_neg h1, if_neg h2, if_pos h3]; rfl, ?_⟩
    intro j hj hc
    interval_cases j <;> simp only [ageCond] at hc <;> omega
  by_cases h4 : 76 ≤ a ∧ a ≤ 80
  · refine ⟨4, by omega, h4,
      by rw [if_neg h0, if_neg h1, if_neg h2, if_neg h3, if_pos h4]; rfl, ?_⟩
    intro j hj hc
    interval_cases j <;> simp only [ageCond] at hc <;> omega
  · refine ⟨5, by omega, by simp only [ageCond]; omega,
      by rw [if_neg h0, if_neg h1, if_neg h2, if_neg h3, if_neg h4]; rfl, ?_⟩
    intro j hj hc
    interval_cases j <;> simp only [ageCond] at hc <;> omega

/-- C2: for every integer birth year and reference year, the age classifier
agrees with the spec's bucket table, returns one of the six fixed bucket
labels, and the six integer-age conditions partition the age line with no
gaps or overlaps (exactly one condition holds, and the output is that
bucket's label); the classifier is total on integer input. -/
theorem claim_C2 :
    (∀ y r : Int, get_age_group y r = classifyAgeGroup_spec y r) ∧
    (∀ y r : Int,
      get_age_group y r ∈ ["Below 60", "60-65", "66-70", "71-75", "76-80", "80+"]) ∧
    (∀ y r : Int, ∃ i : Nat, i < 6 ∧ ageCond i (r - y) ∧
      get_age_group y r = ageBucketName i ∧
      ∀ j : Nat, j < 6 → ageCond j (r - y) → j = i) := by
  refine ⟨fun y r => rfl, ?_, age_group_complete⟩
  intro y r
  obtain ⟨i, hi6, -, hi, -⟩ := age_group_complete y r
  rw [hi]
  interval_cases i <;> simp [ageBucketName]

/-- Witness for C2 at the spec's worked example: birth year 1955, reference
year 2024. -/
theorem claim_C2_witness :
    get_age_group 1955 2024 = classifyAgeGroup_spec 1955 2024 ∧
    classifyAgeGroup_spec 1955 2024 = "66-70" :=
  ⟨claim_C2.1 1955 2024, by decide⟩

/-- C7: the classifiers reproduce the spec's worked example: pincode
`"400001"` maps to state `"Maharashtra"` and district `"Mumbai"`, and birth
year 1955 at reference year 2024 gives age 69 and bucket `"66-70"`. -/
theorem claim_C7 :
    get_state_from_pincode_fixed "400001" = "Maharashtra" ∧
    get_district_from_pincode "400001" = "Mumbai" ∧
    (2024 : Int) - 1955 = 69 ∧
    get_age_group 1955 2024 = "66-70" := by
  refine ⟨by decide, by decide, by decide, by decide⟩

theorem digit_ne_dot {c : Char} (h : c.isDigit = true) : c ≠ '.' := by
  intro hc
  subst hc
  exact absurd h (by decide)

/-- C8 counterexample: the claim says only a *trailing* `".0"` is removed
and every other character is left unchanged, but
`dlc_bank_analysis_fixed.py` line 94 uses `str.replace('.0','')`, which
removes a non-trailing occurrence as well: `".04"` becomes `"4"` even
though `".04"` has no trailing `".0"` (the trailing-only normalizer of
`app.py` leaves it unchanged). -/
theorem claim_C8_counterexample :
    stripDotZeroS ".04" = "4" ∧ clean_pincode_app ".04" = ".04" ∧
    stripDotZeroS ".04" ≠ ".04" := by
  refine ⟨by decide, by decide, by decide⟩

theorem stripDotZero_digits_concat (l : List Char) (hd : ∀ c ∈ l, c.isDigit = true) :
    stripDotZero (l ++ ['.', '0']) = l := by
  induction l with
  | nil => decide
  | cons c l ih =>
    have hc : c ≠ '.' := digit_ne_dot (hd c (List.mem_cons_self _ _))
    have ih' := ih (fun c' h' => hd c' (List.mem_cons_of_mem _ h'))
    cases l with
    | nil => simp [stripDotZero, hc]
    | cons c₂ l₂ =>
      have hcc : ¬(c = '.' ∧ c₂ = '0') := fun h => hc h.1
      simp only [List.cons_append, stripDotZero, List.append_eq]
      rw [if_neg hcc]
      rw [List.cons_append] at ih'
      rw [ih']

theorem clean_pincode_app_concat (l : List Char) :
    clean_pincode_app ⟨l ++ ['.', '0']⟩ = ⟨l⟩ := by
  simp only [clean_pincode_app]
  have h1 : endsDotZero (l ++ ['.', '0']) = true := by
    simp only [endsDotZero, List.reverse_append]
    rfl
  rw [if_pos h1]
  have h2 : (l ++ ['.', '0']).dropLast.dropLast = l := by
    have : l ++ ['.', '0'] = (l ++ ['.']) ++ ['0'] := by simp
    rw [this, List.dropLast_concat, List.dropLast_concat]
  rw [h2]

/-- C8 (amended): the claim holds for the `app.py` normalization path, but
`dlc_bank_analysis_fixed.py` removes *every* occurrence of `".0"`
(leftmost-first, non-overlapping), not only a trailing one.  On the
spreadsheet float artifacts the claim is about — a digit string followed by
`".0"` — both paths strip exactly the trailing `".0"`; missing values
become the empty string and neither path errors. -/
theorem claim_C8 :
    (∀ l : List Char, (∀ c ∈ l, c.isDigit = true) →
      stripDotZero (l ++ ['.', '0']) = l ∧ clean_pincode_app ⟨l ++ ['.', '0']⟩ = ⟨l⟩) ∧
    normPin none = "" ∧
    (∀ s : String, normPin (some s) = stripDotZeroS s) := by
  exact ⟨fun l hd => ⟨stripDotZero_digits_concat l hd, clean_pincode_app_concat l⟩,
    rfl, fun s => rfl⟩

/-- Witness for C8 at the digit string `"110001"` with the float artifact
`".0"` appended. -/
theorem claim_C8_witness :
    stripDotZero (['1', '1', '0', '0', '0', '1'] ++ ['.', '0'])
      = ['1', '1', '0', '0', '0', '1'] ∧
    clean_pincode_app ⟨['1', '1', '0', '0', '0', '1'] ++ ['.', '0']⟩
      = ⟨['1', '1', '0', '0', '0', '1']⟩ :=
  claim_C8.1 ['1', '1', '0', '0', '0', '1'] (by decide)

/-- C5: a record is counted by the bank-pincode view exactly when its
normalized branch pincode is non-empty and at least six characters long:
failing records leave the bank-pincode accumulator untouched, passing
records increment their branch-pincode bucket, and the state-level view of
`excel_data_processor.py` counts every record under its pensioner state
regardless of the branch pincode — the two views have independent
inclusion predicates. -/
theorem claim_C5 (current_year : Int) (r : Row) :
    ((normPin r.BRANCH_PINCODE = "" ∨ (normPin r.BRANCH_PINCODE).length < 6) →
      ∀ m, bankStep current_year m r = m) ∧
    (¬(normPin r.BRANCH_PINCODE = "" ∨ (normPin r.BRANCH_PINCODE).length < 6) →
      ∀ m, (lookupD (normPin r.BRANCH_PINCODE) bankDefault
          (bankStep current_year m r)).total_dlc_completed
        = (lookupD (normPin r.BRANCH_PINCODE) bankDefault m).total_dlc_completed + 1) ∧
    (∀ sm, (lookupD (get_state_from_pincode_app (r.PENSIONER_PINCODE.getD ""))
          stateDefault (stateStep current_year sm r)).total_pensioners
        = (lookupD (get_state_from_pincode_app (r.PENSIONER_PINCODE.getD ""))
          stateDefault sm).total_pensioners + 1) := by
  refine ⟨?_, ?_, ?_⟩
  · intro h m
    simp only [bankStep]
    rw [if_pos h]
  · intro h m
    simp only [bankStep]
    rw [if_neg h, lookupD_updateA_self]
  · intro sm
    simp only [stateStep]
    rw [lookupD_updateA_self]

/-- Witness for C5: a record whose branch pincode `"123"` is too short is
dropped by the bank-pincode view. -/
theorem claim_C5_witness :
    bankStep 2024 [] ⟨some "123", some "110001", some 1950⟩ = [] :=
  (claim_C5 2024 ⟨some "123", some "110001", some 1950⟩).1 (by decide) []

theorem mem_insertByCountDesc (x z : String × Nat) (l : List (String × Nat))
    (h : z ∈ insertByCountDesc x l) : z = x ∨ z ∈ l := by
  induction l with
  | nil => simpa [insertByCountDesc] using h
  | cons y ys ih =>
    by_cases hy : y.2 ≤ x.2
    · simpa [insertByCountDesc, hy] using h
    · simp only [insertByCountDesc, if_neg hy, List.mem_cons] at h
      rcases h with h | h
      · exact Or.inr (h ▸ List.mem_cons_self _ _)
      · rcases ih h with h' | h'
        · exact Or.inl h'
        · exact Or.inr (List.mem_cons_of_mem _ h')

theorem pairwise_insertByCountDesc (x : String × Nat) (l : List (String × Nat))
    (h : List.Pairwise (fun a b => b.2 ≤ a.2) l) :
    List.Pairwise (fun a b => b.2 ≤ a.2) (insertByCountDesc x l) := by
  induction l with
  | nil => simp [insertByCountDesc]
  | cons y ys ih =>
    rw [List.pairwise_cons] at h
    by_cases hy : y.2 ≤ x.2
    · rw [insertByCountDesc, if_pos hy, List.pairwise_cons]
      refine ⟨?_, List.pairwise_cons.mpr h⟩
      intro b hb
      rcases List.mem_cons.mp hb with hb | hb
      · exact hb ▸ hy
      · exact le_trans (h.1 b hb) hy
    · rw [insertByCountDesc, if_neg hy, List.pairwise_cons]
      refine ⟨?_, ih h.2⟩
      intro b hb
      rcases mem_insertByCountDesc x b ys hb with hb' | hb'
      · exact hb' ▸ le_of_lt (lt_of_not_le hy)
      · exact h.1 b hb'

theorem pairwise_sortByCountDesc (l : List (String × Nat)) :
    List.Pairwise (fun a b => b.2 ≤ a.2) (sortByCountDesc l) := by
  induction l with
  | nil => simp [sortByCountDesc]
  | cons x xs ih => exact pairwise_insertByCountDesc x (sortByCountDesc xs) ih

theorem filter_insertByCountDesc (c : Nat) (x : String × Nat) (l : List (String × Nat))
    (h : List.Pairwise (fun a b => b.2 ≤ a.2) l) :
    (insertByCountDesc x l).filter (fun p => p.2 == c) =
      if x.2 = c then x :: l.filter (fun p => p.2 == c)
      else l.filter (fun p => p.2 == c) := by
  induction l with
  | nil =>
    by_cases hx : x.2 = c <;> simp [insertByCountDesc, List.filter_cons, hx]
  | cons y ys ih =>
    rw [List.pairwise_cons] at h
    by_cases hy : y.2 ≤ x.2
    · rw [insertByCountDesc, if_pos hy]
      by_cases hx : x.2 = c <;> simp [List.filter_cons, hx]
    · rw [insertByCountDesc, if_neg hy]
      rw [List.filter_cons, List.filter_cons, ih h.2]
      by_cases hx : x.2 = c
      · have hyc : ¬(y.2 = c) := by omega
        simp [hx, hyc]
      · simp [hx]

theorem filter_sortByCountDesc (c : Nat) (l : List (String × Nat)) :
    (sortByCountDesc l).filter (fun p => p.2 == c) = l.filter (fun p => p.2 == c) := by
  induction l with
  | nil => rfl
  | cons x xs ih =>
    rw [sortByCountDesc,
      filter_insertByCountDesc c x (sortByCountDesc xs) (pairwise_sortByCountDesc xs)]
    rw [List.filter_cons]
    by_cases hx : x.2 = c <;> simp [hx, ih]

/-- C6: the top-N projection sorts descending by count with ties kept in
first-encountered order — the sort is pairwise descending, it permutes
elements only across different counts (the subsequence of any fixed count
is preserved verbatim, i.e. ties are never reordered alphabetically), and
on the spec's example `[A:50, B:50, C:30]` the top-2 output is `[A, B]`. -/
theorem claim_C6 :
    (∀ l : List (String × Nat),
      List.Pairwise (fun a b => b.2 ≤ a.2) (sortByCountDesc l)) ∧
    (∀ (c : Nat) (l : List (String × Nat)),
      (sortByCountDesc l).filter (fun p => p.2 == c) = l.filter (fun p => p.2 == c)) ∧
    topN 2 [("A", 50), ("B", 50), ("C", 30)] = [("A", 50), ("B", 50)] :=
  ⟨pairwise_sortByCountDesc, filter_sortByCountDesc, by decide⟩

theorem apiStateRollup_total_aux (entries : List (String × BankData))
    (m : List (String × ApiStateData)) (S : String) :
    (lookupD S apiStateDefault (entries.foldl apiStateStep m)).total_dlc_completed
      = (lookupD S apiStateDefault m).total_dlc_completed
        + ((entries.filter (fun e => e.2.state == S)).map
            (fun e => e.2.total_dlc_completed)).sum := by
  induction entries generalizing m with
  | nil => simp
  | cons e es ih =>
    rw [List.foldl_cons, ih]
    by_cases h : e.2.state = S
    · have h1 : (lookupD S apiStateDefault (apiStateStep m e)).total_dlc_completed
          = (lookupD S apiStateDefault m).total_dlc_completed + e.2.total_dlc_completed := by
        simp only [apiStateStep, h]
        rw [lookupD_updateA_self]
      rw [h1, List.filter_cons]
      simp only [h, beq_self_eq_true, if_pos]
      rw [List.map_cons, List.sum_cons]
      omega
    · have h1 : (lookupD S apiStateDefault (apiStateStep m e)).total_dlc_completed
          = (lookupD S apiStateDefault m).total_dlc_completed := by
        simp only [apiStateStep]
        rw [lookupD_updateA_ne _ _ (fun hh => h hh.symm)]
      rw [h1, List.filter_cons]
      have h2 : (e.2.state == S) = false := by
        simpa using h
      rw [h2]
      simp

/-- Default entry of the finalized state map. -/
def apiFinalDefault : ApiStateFinal :=
  ⟨0, []⟩

theorem lookupD_apiStateFinalize (S : String) (m : List (String × ApiStateData)) :
    (lookupD S apiFinalDefault (apiStateFinalize m)).total_pensioners
      = (lookupD S apiStateDefault m).total_dlc_completed := by
  induction m with
  | nil => rfl
  | cons e rest ih =>
    by_cases h : e.1 = S
    · simp [apiStateFinalize, lookupD, h]
    · simp only [apiStateFinalize, List.map_cons, lookupD, h, if_neg]
      simpa [apiStateFinalize] using ih

/-- C3: in the bank-location state rollup of `dlc_api_endpoint.py`, the
`total_pensioners` reported for any state `S` equals the exact sum of
`total_dlc_completed` over the bank-pincode buckets whose stored `state`
field is `S` — conservation holds exactly, with no drift. -/
theorem claim_C3 (entries : List (String × BankData)) (S : String) :
    (lookupD S apiFinalDefault (apiStateFinalize (apiStateRollup entries))).total_pensioners
      = ((entries.filter (fun e => e.2.state == S)).map
          (fun e => e.2.total_dlc_completed)).sum := by
  rw [lookupD_apiStateFinalize, apiStateRollup, apiStateRollup_total_aux]
  simp [lookupD, apiStateDefault]

/-- C9: sentinel pensioner-state labels contribute nothing to the
residence-based rollup of `app.py` — a `"Invalid Pincode"` or
`"Other State"` entry of any count can be dropped from a bucket's
`pensioner_states` without changing the rollup result at all — while the
bank-location rollup of `dlc_api_endpoint.py` retains buckets whose stored
state is a sentinel label, counting their full total under that label. -/
theorem claim_C9 (pc st : String) (T : Nat) (ags ps : List (String × Nat)) (n : Nat)
    (sent : String) (hsent : sent = "Invalid Pincode" ∨ sent = "Other State") :
    (∀ m, resStep m (pc, ⟨T, ags, st, (sent, n) :: ps⟩) = resStep m (pc, ⟨T, ags, st, ps⟩)) ∧
    (lookupD sent apiStateDefault
      (apiStateRollup [(pc, ⟨T, ags, sent, ps⟩)])).total_dlc_completed = T := by
  have hni : ¬ stateIncluded sent := by
    rcases hsent with h | h <;> subst h <;> decide
  constructor
  · intro m
    simp only [resStep, resInner, List.foldl_cons]
    rw [if_neg hni]
  · simp only [apiStateRollup, List.foldl_cons, List.foldl_nil, apiStateStep]
    rw [lookupD_updateA_self]
    simp [lookupD, apiStateDefault]

/-- Witness for C9 at a concrete bucket with an `"Invalid Pincode"` entry. -/
theorem claim_C9_witness :
    resStep [] ("p1", ⟨10, [("60-65", 10)], "Delhi", [("Invalid Pincode", 3)]⟩)
      = resStep [] ("p1", ⟨10, [("60-65", 10)], "Delhi", []⟩) ∧
    (lookupD "Invalid Pincode" apiStateDefault
      (apiStateRollup [("p1", ⟨10, [("60-65", 10)], "Invalid Pincode", []⟩)])).total_dlc_completed
      = 10 := by
  have h := claim_C9 "p1" "Delhi" 10 [("60-65", 10)] [] 3 "Invalid Pincode" (Or.inl rfl)
  exact ⟨h.1 [], h.2⟩

/-- The together-incremented invariant of a bank-pincode bucket: the total
equals the sum of the age-group histogram and the sum of the
pensioner-state histogram. -/
def bucketInv (d : BankData) : Prop :=
  d.total_dlc_completed = sumVals d.age_groups ∧
  d.total_dlc_completed = sumVals d.pensioner_states

theorem bankStep_inv (current_year : Int) (m : List (String × BankData)) (r : Row)
    (h : ∀ e ∈ m, bucketInv e.2) : ∀ e ∈ bankStep current_year m r, bucketInv e.2 := by
  intro e he
  simp only [bankStep] at he
  split at he
  · exact h e he
  · rcases mem_updateA _ _ _ _ _ he with h1 | ⟨v, hv, hv'⟩
    · exact h e h1
    · have hv2 : bucketInv v := by
        rcases hv' with h2 | h2
        · subst h2
          exact ⟨rfl, rfl⟩
        · exact h _ h2
      subst hv
      refine ⟨?_, ?_⟩
      · simp only [sumVals_bump]
        exact congrArg (· + 1) hv2.1
      · simp only [sumVals_bump]
        exact congrArg (· + 1) hv2.2

theorem analyze_fold_inv (current_year : Int) (rows : List Row)
    (m : List (String × BankData)) (h : ∀ e ∈ m, bucketInv e.2) :
    ∀ e ∈ rows.foldl (bankStep current_year) m, bucketInv e.2 := by
  induction rows generalizing m with
  | nil => exact h
  | cons r rows ih =>
    rw [List.foldl_cons]
    exact ih _ (bankStep_inv current_year m r h)

/-- C10: every bucket of the persisted bank-pincode summary has a strictly
positive `total_dlc_completed`, and that total equals both the sum of its
`age_groups` counts and the sum of its `pensioner_states` counts — the per
record loop increments the three quantities together and the emission
filter keeps only pincodes with at least one completion. -/
theorem claim_C10 (current_year : Int) (rows : List Row) (pc : String) (d : BankData)
    (h : (pc, d) ∈ analyze current_year rows) :
    1 ≤ d.total_dlc_completed ∧
    d.total_dlc_completed = sumVals d.age_groups ∧
    d.total_dlc_completed = sumVals d.pensioner_states := by
  unfold analyze at h
  have hmem := List.mem_of_mem_filter h
  have hpos := List.of_mem_filter h
  simp only [decide_eq_true_eq] at hpos
  have hinv := analyze_fold_inv current_year rows [] (by simp) (pc, d) hmem
  exact ⟨hpos, hinv.1, hinv.2⟩

/-- Witness for C10: a single-record run produces one bucket satisfying the
invariants. -/
theorem claim_C10_witness :
    1 ≤ (1 : Nat) ∧ (1 : Nat) = sumVals [("66-70", 1)] ∧
    (1 : Nat) = sumVals [("Gujarat", 1)] :=
  claim_C10 2024 [⟨some "400001", some "360005", some 1955⟩] "400001"
    ⟨1, [("66-70", 1)], "Maharashtra", [("Gujarat", 1)]⟩ (by decide)

theorem lookupD_foldl_bump (g : String) (f : String × Nat → Nat) (l : List (String × Nat)) :
    ∀ m : List (String × Nat),
    lookupD g 0 (l.foldl (fun acc a => bump a.1 (f a) acc) m)
      = lookupD g 0 m + ((l.filter (fun a => a.1 == g)).map f).sum := by
  induction l with
  | nil => intro m; simp
  | cons a l ih =>
    intro m
    rw [List.foldl_cons, ih]
    by_cases ha : a.1 = g
    · rw [List.filter_cons]
      have hb : (a.1 == g) = true := beq_iff_eq.mpr ha
      rw [hb]
      simp only [if_true, List.map_cons, List.sum_cons]
      rw [ha, lookupD_bump_self]
      omega
    · rw [List.filter_cons]
      have hb : (a.1 == g) = false := by simpa using ha
      rw [hb]
      simp only [Bool.false_eq_true, if_false]
      rw [lookupD_bump_ne _ _ (fun h => ha h.symm)]

theorem resInner_lookupAge_ne (T : Nat) (ags : List (String × Nat)) (bst s g : String)
    (q : String × Nat) (m : List (String × ResStateData)) (hq : q.1 ≠ s) :
    lookupAgeRes s g (resInner T ags bst m q) = lookupAgeRes s g m := by
  unfold resInner
  split
  · unfold lookupAgeRes
    rw [lookupD_updateA_ne _ _ (Ne.symm hq)]
  · rfl

theorem res_fold_age_skip (T : Nat) (ags : List (String × Nat)) (bst s g : String)
    (ps : List (String × Nat)) (hps : ∀ q ∈ ps, q.1 ≠ s) :
    ∀ m, lookupAgeRes s g (ps.foldl (resInner T ags bst) m) = lookupAgeRes s g m := by
  induction ps with
  | nil => intro m; rfl
  | cons q ps ih =>
    intro m
    rw [List.foldl_cons]
    rw [ih (fun q' h' => hps q' (List.mem_cons_of_mem _ h'))]
    exact resInner_lookupAge_ne T ags bst s g q m (hps q (List.mem_cons_self _ _))

theorem resInner_lookupAge_self (T : Nat) (ags : List (String × Nat)) (bst s g : String)
    (A P : Nat) (m : List (String × ResStateData)) (hT : 0 < T)
    (hg : ags.filter (fun a => a.1 == g) = [(g, A)]) (hincl : stateIncluded s) :
    lookupAgeRes s g (resInner T ags bst m (s, P)) = lookupAgeRes s g m + (A * P) / T := by
  unfold resInner
  rw [if_pos hincl]
  unfold lookupAgeRes
  rw [lookupD_updateA_self]
  dsimp only
  rw [if_pos hT]
  rw [lookupD_foldl_bump g (fun a => (a.2 * P) / T) ags]
  rw [hg]
  simp

theorem res_fold_age (T : Nat) (ags : List (String × Nat)) (bst s g : String)
    (A P : Nat) (hT : 0 < T) (hg : ags.filter (fun a => a.1 == g) = [(g, A)])
    (hincl : stateIncluded s) :
    ∀ (ps : List (String × Nat)) (m : List (String × ResStateData)),
    ps.filter (fun q => q.1 == s) = [(s, P)] →
    lookupAgeRes s g (ps.foldl (resInner T ags bst) m) = lookupAgeRes s g m + (A * P) / T := by
  intro ps
  induction ps with
  | nil =>
    intro m hf
    exact absurd hf (by simp)
  | cons q ps ih =>
    intro m hf
    rw [List.foldl_cons]
    by_cases hq : q.1 = s
    · rw [List.filter_cons] at hf
      have hb : (q.1 == s) = true := beq_iff_eq.mpr hq
      rw [hb] at hf
      simp only [if_true] at hf
      obtain ⟨hq2, hrest⟩ := List.cons_eq_cons.mp hf
      have hskip : ∀ q' ∈ ps, q'.1 ≠ s := by
        intro q' hq'
        simpa using List.filter_eq_nil_iff.mp hrest q' hq'
      rw [res_fold_age_skip T ags bst s g ps hskip]
      subst hq2
      exact resInner_lookupAge_self T ags bst s g A P m hT hg hincl
    · rw [List.filter_cons] at hf
      have hb : (q.1 == s) = false := by simpa using hq
      rw [hb] at hf
      simp only [Bool.false_eq_true, if_false] at hf
      rw [ih _ hf]
      rw [resInner_lookupAge_ne T ags bst s g q m hq]

/-- C1: for a bank-pincode bucket with total completions `T > 0`, an
age-group entry `(g, A)` and a non-sentinel pensioner residence state entry
`(s, P)`, the residence rollup of `app.py` lines 835-852 adds exactly
`(A * P) / T` — the integer truncation of the exact quotient, i.e. the
unique `q` with `T*q ≤ A*P < T*(q+1)` — to state `s`'s count for age group
`g`, on top of any previously accumulated value. -/
theorem claim_C1 (m : List (String × ResStateData)) (pc st : String)
    (T A P : Nat) (ags ps : List (String × Nat)) (s g : String)
    (hT : 0 < T)
    (hg : ags.filter (fun a => a.1 == g) = [(g, A)])
    (hs : ps.filter (fun q => q.1 == s) = [(s, P)])
    (hincl : stateIncluded s) :
    lookupAgeRes s g (resStep m (pc, ⟨T, ags, st, ps⟩)) = lookupAgeRes s g m + (A * P) / T ∧
    T * ((A * P) / T) ≤ A * P ∧ A * P < T * ((A * P) / T + 1) := by
  refine ⟨?_, Nat.mul_div_le (A * P) T, ?_⟩
  · exact res_fold_age T ags st s g A P hT hg hincl ps m hs
  · have h3 : A * P < (A * P / T + 1) * T :=
      (Nat.div_lt_iff_lt_mul hT).mp (Nat.lt_succ_self _)
    rw [Nat.mul_comm T (A * P / T + 1)]
    exact h3

/-- Witness for C1 at the spec's worked example: `T = 100`, age group
`"66-70"` with `A = 40`, residence state `"Gujarat"` with `P = 25` — the
redistributed count is `floor(40*25/100) = 10`. -/
theorem claim_C1_witness :
    lookupAgeRes "Gujarat" "66-70"
      (resStep [] ("400001", ⟨100, [("66-70", 40)], "Maharashtra", [("Gujarat", 25)]⟩))
      = lookupAgeRes "Gujarat" "66-70" [] + (40 * 25) / 100 ∧
    (40 * 25) / 100 = 10 :=
  ⟨(claim_C1 [] "400001" "Maharashtra" 100 40 25 [("66-70", 40)] [("Gujarat", 25)]
    "Gujarat" "66-70" (by decide) (by decide) (by decide) (by decide)).1, by decide⟩

theorem divsum_le_sum_div (l : List Nat) (T : Nat) :
    (l.map (· / T)).sum ≤ l.sum / T := by
  induction l with
  | nil => simp
  | cons x l ih =>
    simp only [List.map_cons, List.sum_cons]
    exact le_trans (Nat.add_le_add_left ih _) (Nat.add_div_le_add_div x l.sum T)

theorem sum_succ_le_mul_divsum (T : Nat) (hT : 0 < T) (l : List Nat) :
    l.sum + l.length ≤ ((l.map (· / T)).sum + l.length) * T := by
  induction l with
  | nil => simp
  | cons x l ih =>
    have h1 : x + 1 ≤ (x / T + 1) * T := (Nat.div_lt_iff_lt_mul hT).mp (Nat.lt_succ_self _)
    simp only [List.map_cons, List.sum_cons, List.length_cons]
    have h2 := Nat.add_le_add h1 ih
    have h3 : (x / T + 1) * T + ((l.map (· / T)).sum + l.length) * T
        = (x / T + (l.map (· / T)).sum + (l.length + 1)) * T := by
      rw [← Nat.add_mul]
      congr 1
      omega
    calc x + l.sum + (l.length + 1) = (x + 1) + (l.sum + l.length) := by omega
      _ ≤ (x / T + 1) * T + ((l.map (· / T)).sum + l.length) * T := h2
      _ = (x / T + (l.map (· / T)).sum + (l.length + 1)) * T := h3

theorem sum_map_mul_snd (l : List (String × Nat)) (P : Nat) :
    (l.map (fun a => a.2 * P)).sum = sumVals l * P := by
  induction l with
  | nil => simp [sumVals]
  | cons a l ih =>
    simp only [List.map_cons, List.sum_cons, sumVals] at *
    rw [ih, Nat.add_mul]

theorem sum_map_add_const (l : List (String × Nat)) (f : String × Nat → Nat) (c : Nat) :
    (l.map (fun q => f q + c)).sum = (l.map f).sum + l.length * c := by
  induction l with
  | nil => simp
  | cons a l ih =>
    simp only [List.map_cons, List.sum_cons, List.length_cons, ih, Nat.succ_mul]
    omega

/-- A reachable bucket violating C4's stated window: two records at one
branch pincode with different age groups and different (valid) residence
states — each of the four truncated shares `floor(1*1/2)` is `0`, so the
whole total of `2` is lost, which is not `< numAgeGroups = 2`. -/
def c4Bucket : BankData :=
  ⟨2, [("60-65", 1), ("66-70", 1)], "Delhi", [("Delhi", 1), ("Gujarat", 1)]⟩

/-- C4 counterexample: for `c4Bucket` — which satisfies the pipeline's
bucket invariants (both histogram sums equal the total) and has only valid
residence states — the redistributed sum is `0`, the difference from the
total is `2`, and `2 < numAgeGroups = 2` is false; the residence rollup
indeed adds zero age-group mass for this bucket. -/
theorem claim_C4_counterexample :
    redistributedSum c4Bucket = 0 ∧
    c4Bucket.total_dlc_completed - redistributedSum c4Bucket = 2 ∧
    ¬(c4Bucket.total_dlc_completed - redistributedSum c4Bucket
        < c4Bucket.age_groups.length) ∧
    sumVals c4Bucket.age_groups = c4Bucket.total_dlc_completed ∧
    sumVals c4Bucket.pensioner_states = c4Bucket.total_dlc_completed ∧
    ((resRollup [("110001", c4Bucket)]).map (fun e => sumVals e.2.age_groups)).sum = 0 := by
  refine ⟨by decide, by decide, by decide, by decide, by decide, by decide⟩

/-- C4 (amended): for a bucket with positive total `T` whose age-group and
pensioner-state histograms both sum to `T` and whose residence states are
all non-sentinel, the redistributed (truncated) sum over all states and age
groups is at most `T`, and the difference from `T` lies within
`[0, numStates × numAgeGroups)` — the per-term truncation loss is bounded
by the number of (state, age-group) pairs, not by the number of age groups
alone. -/
theorem claim_C4 (T : Nat) (st : String) (ags ps : List (String × Nat))
    (hT : 0 < T) (hags : sumVals ags = T) (hps : sumVals ps = T)
    (hincl : ∀ q ∈ ps, stateIncluded q.1) :
    redistributedSum ⟨T, ags, st, ps⟩ ≤ T ∧
    T - redistributedSum ⟨T, ags, st, ps⟩ < ps.length * ags.length := by
  have hfil : ps.filter (fun q => decide (stateIncluded q.1)) = ps :=
    List.filter_eq_self.mpr (fun q hq => by simpa using hincl q hq)
  have hred : redistributedSum ⟨T, ags, st, ps⟩
      = (ps.map (fun q => (ags.map (fun a => (a.2 * q.2) / T)).sum)).sum := by
    simp only [redistributedSum]
    rw [hfil]
  have hupper : ∀ q ∈ ps, (ags.map (fun a => (a.2 * q.2) / T)).sum ≤ q.2 := by
    intro q _
    have e1 : ags.map (fun a => (a.2 * q.2) / T) = (ags.map (fun a => a.2 * q.2)).map (· / T) := by
      rw [List.map_map]
      rfl
    rw [e1]
    calc ((ags.map (fun a => a.2 * q.2)).map (· / T)).sum
        ≤ (ags.map (fun a => a.2 * q.2)).sum / T := divsum_le_sum_div _ T
      _ = sumVals ags * q.2 / T := by rw [sum_map_mul_snd]
      _ = T * q.2 / T := by rw [hags]
      _ = q.2 := Nat.mul_div_cancel_left q.2 hT
  have hlower : ∀ q ∈ ps, q.2 + 1 ≤ (ags.map (fun a => (a.2 * q.2) / T)).sum + ags.length := by
    intro q _
    have h1 := sum_succ_le_mul_divsum T hT (ags.map (fun a => a.2 * q.2))
    rw [List.length_map, List.map_map] at h1
    have e1 : (ags.map (fun a => a.2 * q.2)).sum = T * q.2 := by
      rw [sum_map_mul_snd, hags]
    rw [e1] at h1
    have e2 : ags.map ((· / T) ∘ fun a => a.2 * q.2) = ags.map (fun a => (a.2 * q.2) / T) := rfl
    rw [e2] at h1
    by_contra hcon
    push_neg at hcon
    have hle : (ags.map (fun a => (a.2 * q.2) / T)).sum + ags.length ≤ q.2 := by omega
    have hmul : ((ags.map (fun a => (a.2 * q.2) / T)).sum + ags.length) * T ≤ q.2 * T :=
      Nat.mul_le_mul_right T hle
    have hc : T * q.2 = q.2 * T := Nat.mul_comm T q.2
    have hG : ags.length = 0 := by omega
    have : ags = [] := List.length_eq_zero.mp hG
    subst this
    simp [sumVals] at hags
    omega
  have hup : (ps.map (fun q => (ags.map (fun a => (a.2 * q.2) / T)).sum)).sum ≤ T :=
    calc (ps.map (fun q => (ags.map (fun a => (a.2 * q.2) / T)).sum)).sum
        ≤ (ps.map (fun q => q.2)).sum := List.sum_le_sum hupper
      _ = T := hps
  constructor
  · rw [hred]
    exact hup
  · have hsum := List.sum_le_sum hlower
    rw [sum_map_add_const ps (fun q => q.2) 1, Nat.mul_one] at hsum
    rw [sum_map_add_const ps (fun q => (ags.map (fun a => (a.2 * q.2) / T)).sum)
      ags.length] at hsum
    have hS : 1 ≤ ps.length := by
      cases ps with
      | nil =>
        simp [sumVals] at hps
        omega
      | cons q ps => simp
    have hps' : (ps.map (fun q => q.2)).sum = T := hps
    rw [hred]
    omega

/-- Witness for C4 at a one-state, one-age-group bucket: the truncated sum
is exact and the drift `0` is inside `[0, 1*1)`. -/
theorem claim_C4_witness :
    redistributedSum ⟨2, [("60-65", 2)], "Delhi", [("Delhi", 2)]⟩ ≤ 2 ∧
    2 - redistributedSum ⟨2, [("60-65", 2)], "Delhi", [("Delhi", 2)]⟩ < 1 * 1 :=
  claim_C4 2 "Delhi" [("60-65", 2)] [("Delhi", 2)] (by decide) (by decide) (by decide)
    (by decide)

end DLC
